import Mathlib

/-!
# Verification of the Monte Carlo option pricer

Shallow embedding of the numerical core of the multi-threaded Monte Carlo
option-pricing application (FDM_SDE.hpp, Pricer.hpp, MIS.hpp, RNG.hpp).
C++ `double` values are modelled as real numbers; the sequential stream of
standard-normal draws consumed by the simulation loop is modelled as an
explicit function `Z : ℕ → ℝ`; the stateful `push_back` loops are modelled
as structural recursion on the remaining iteration count.
-/

set_option maxHeartbeats 1000000

open Real

namespace FDM_SDE

/-- `FDM_SDE.hpp` line 58/66: `double betaCEV = 1.0;` (CEV elasticity, fixed). -/
noncomputable def betaCEV : ℝ := 1.0

/-- `FDM_SDE::GBM` (FDM_SDE.hpp 45-47): `S * exp(T*(r - 0.5*sigma*sigma))`. -/
noncomputable def GBM (S T sigma r : ℝ) : ℝ :=
  S * Real.exp (T * (r - 0.5 * sigma * sigma))

/-- `FDM_SDE::drift` (FDM_SDE.hpp 52-54): `r*S`. -/
noncomputable def drift (r S : ℝ) : ℝ := r * S

/-- `FDM_SDE::diffusion` (FDM_SDE.hpp 57-60): `vol * std::pow(S, betaCEV)`;
`std::pow` with real exponent is modelled by `Real.rpow`. -/
noncomputable def diffusion (vol S : ℝ) : ℝ := vol * S ^ betaCEV

/-- `FDM_SDE::diffusion_derivative` (FDM_SDE.hpp 65-68):
`0.5 * vol * (betaCEV) * pow(S, 2.0 * betaCEV - 1.0)`. -/
noncomputable def diffusion_derivative (vol S : ℝ) : ℝ :=
  0.5 * vol * betaCEV * S ^ (2.0 * betaCEV - 1.0)

end FDM_SDE

namespace Pricer

/-- The option data tuple (`Pricer.hpp` 26, `Input.hpp` 21):
volatility, rate, expiry, stock, strike, number of simulations. -/
structure OptionData where
  vol : ℝ
  r : ℝ
  T : ℝ
  S : ℝ
  K : ℝ
  NSIM : ℕ

/-- Observable outcome of `Pricer::GeneralPricer` (Pricer.hpp 64-66, 61):
the two retained sample vectors, the discounted price `m_price` and the
`explicit_euler` indicator set by the time-discretized branches. -/
structure PricerRun where
  stock_flunct : List ℝ
  option_prices : List ℝ
  m_price : ℝ
  explicit_euler : Bool

/-- Full match of the regular expression `"(Asian)(.*)"` (Pricer.hpp 157),
i.e. the payoff name starts with `Asian`. -/
def isAsianName (s : String) : Bool :=
  decide (s.data.take 5 = ['A', 's', 'i', 'a', 'n'])

/-- Pricer.hpp 156-160:
`bool asian = false; ... if (std::regex_match(...)) { bool asian = true; }`.
The declaration inside the branch introduces a NEW local variable that
shadows the outer `asian`; the outer flag read by the simulation loop is
therefore never mutated. -/
def asianFlag (payoffName : String) : Bool :=
  let asian := false
  let _shadowed := if isAsianName payoffName then true else asian
  asian

/-- Pricer.hpp 163: `double dt = T / static_cast<double>(NSteps);`
(evaluated unconditionally, before the scheme switch). -/
noncomputable def dtOf (T : ℝ) (NSteps : ℕ) : ℝ := T / (NSteps : ℝ)

/-- One Explicit-Euler step (Pricer.hpp 233):
`VOld + dt * drift(r, VOld) + dt_sq * diffusion(vol, VOld) * Normal`. -/
noncomputable def eulerStep (r vol dt dt_sq VOld Z : ℝ) : ℝ :=
  VOld + dt * FDM_SDE.drift r VOld + dt_sq * FDM_SDE.diffusion vol VOld * Z

/-- One Milstein step (Pricer.hpp 285-286): the Euler expression plus
`0.5 * diffusion * diffusion_derivative * (pow(dt_sq*Normal, 2) - dt)`. -/
noncomputable def milsteinStep (r vol dt dt_sq VOld Z : ℝ) : ℝ :=
  VOld + dt * FDM_SDE.drift r VOld + dt_sq * FDM_SDE.diffusion vol VOld * Z
    + 0.5 * FDM_SDE.diffusion vol VOld * FDM_SDE.diffusion_derivative vol VOld
      * ((dt_sq * Z) ^ 2 - dt)

/-- The draws consumed by the inner time loop of path `i`
(Pricer.hpp 228-239: `for (j = 0; j <= NSteps; j++)`, one `n(eng)` call per
iteration, so `NSteps + 1` sequential draws per path). -/
def pathDraws (Z : ℕ → ℝ) (nsteps i : ℕ) : List ℝ :=
  (List.range (nsteps + 1)).map fun j => Z (i * (nsteps + 1) + j)

/-- Terminal value of one time-discretized path: start at `S` and apply the
per-step update once per draw (`VOld = VNew` after each step). -/
noncomputable def discretizedTerminal (step : ℝ → ℝ → ℝ) (S : ℝ) (draws : List ℝ) : ℝ :=
  draws.foldl step S

/-- The successive `VNew` values produced along one path (every value the
inner loop would add to `average_price`). -/
noncomputable def pathValues (step : ℝ → ℝ → ℝ) (S : ℝ) (draws : List ℝ) : List ℝ :=
  (draws.scanl step S).tail

/-- Per-path terminal value of the GBM branch (Pricer.hpp 180, 188):
`FDM_SDE::GBM(S, T, vol, r)` times `exp(sqrt(vol*vol*T)*Normal)`. -/
noncomputable def gbmPathTerminal (S T vol r Z : ℝ) : ℝ :=
  FDM_SDE.GBM S T vol r * Real.exp (Real.sqrt (vol * vol * T) * Z)

/-- Argument handed to the payoff in the (dead) Asian branch
(Pricer.hpp 238/247): `average_price` accumulates every `VNew` of every
path without being reset between paths, and is divided by `NSteps`. -/
noncomputable def asianAverageArg (step : ℝ → ℝ → ℝ) (S : ℝ) (Z : ℕ → ℝ)
    (nsteps i : ℕ) : ℝ :=
  (((List.range (i + 1)).map fun k => (pathValues step S (pathDraws Z nsteps k)).sum).sum)
    / (nsteps : ℝ)

/-- The simulation loop (Pricer.hpp 183-206 / 216-255 / 268-307): for each
remaining path it computes the terminal value, pushes it on `stock_flunct`,
computes the payoff `tmp`, pushes it on `option_prices`, and accumulates the
running `price`. `i` is the index of the next path. -/
noncomputable def simLoop (term : ℕ → ℝ) (pay : ℕ → ℝ → ℝ) (accPrice : ℝ → ℝ → ℝ) :
    ℕ → ℕ → List ℝ × List ℝ × ℝ → List ℝ × List ℝ × ℝ
  | _, 0, st => st
  | i, n + 1, st =>
    let VNew := term i
    let tmp := pay i VNew
    simLoop term pay accPrice (i + 1) n (st.1 ++ [VNew], st.2.1 ++ [tmp], accPrice st.2.2 tmp)

/-- `Pricer::GeneralPricer` (Pricer.hpp 136-322), starting from empty member
vectors. `Z` is the sequential stream of standard-normal draws. -/
noncomputable def GeneralPricer (od : OptionData) (NSteps : ℕ)
    (fdm_model_choice : ℕ) (payoffName : String) (option_payoff : ℝ → ℝ → ℝ)
    (Z : ℕ → ℝ) : PricerRun :=
  let asian := asianFlag payoffName
  let dt := dtOf od.T NSteps
  let dt_sq := Real.sqrt dt
  if fdm_model_choice = 1 then
    -- General Geometric Brownian Motion (case 1)
    let st := simLoop (fun i => gbmPathTerminal od.S od.T od.vol od.r (Z i))
      (fun _ VNew => option_payoff od.K VNew)
      (fun price tmp => price + tmp / (od.NSIM : ℝ)) 0 od.NSIM ([], [], 0)
    ⟨st.1, st.2.1, st.2.2 * Real.exp (-od.r * od.T), false⟩
  else if fdm_model_choice = 2 then
    -- Explicit Euler (case 2); sets explicit_euler = true
    let step := fun V z => eulerStep od.r od.vol dt dt_sq V z
    let st := simLoop (fun i => discretizedTerminal step od.S (pathDraws Z NSteps i))
      (fun i VNew =>
        if asian then option_payoff od.K (asianAverageArg step od.S Z NSteps i)
        else option_payoff od.K VNew)
      (fun price tmp => price + tmp) 0 od.NSIM ([], [], 0)
    ⟨st.1, st.2.1, st.2.2 / (od.NSIM : ℝ) * Real.exp (-od.r * od.T), true⟩
  else if fdm_model_choice = 3 then
    -- Milstein method (case 3); sets explicit_euler = true
    let step := fun V z => milsteinStep od.r od.vol dt dt_sq V z
    let st := simLoop (fun i => discretizedTerminal step od.S (pathDraws Z NSteps i))
      (fun i VNew =>
        if asian then option_payoff od.K (asianAverageArg step od.S Z NSteps i)
        else option_payoff od.K VNew)
      (fun price tmp => price + tmp) 0 od.NSIM ([], [], 0)
    ⟨st.1, st.2.1, st.2.2 / (od.NSIM : ℝ) * Real.exp (-od.r * od.T), true⟩
  else
    -- default: error message only, m_price = 0, vectors untouched
    ⟨[], [], 0, false⟩

/-- `Pricer::output` NSteps field (Pricer.hpp 344-358): `NSteps` when
`explicit_euler` is set, otherwise `NSteps` is overwritten with 0. -/
def outputNSteps (run : PricerRun) (NSteps : ℕ) : ℕ :=
  if run.explicit_euler then NSteps else 0

end Pricer

namespace MIS

/-- The implicit C++ `double → int` conversion applied to every element by
the `[&](int n)` lambdas of `MIS::ComputeStatistics` (MIS.hpp 76, 84):
truncation toward zero. -/
noncomputable def cppIntOf (x : ℝ) : ℤ := if 0 ≤ x then ⌊x⌋ else ⌈x⌉

/-- MIS.hpp 75-80: `std::for_each(option_prices, [&](int n) { sum += n;
sum_sq += pow(n, 2); })`. Each payoff is converted to `int` before being
accumulated. Returns `(sum, sum_sq)`. -/
noncomputable def sums (option_prices : List ℝ) : ℝ × ℝ :=
  option_prices.foldl (fun acc p =>
    let n : ℤ := cppIntOf p
    (acc.1 + (n : ℝ), acc.2 + (n : ℝ) ^ 2)) (0, 0)

/-- MIS.hpp 92: the standard deviation set by `MIS::ComputeStatistics`:
`sqrt((sum_sq - (1.0/size)*pow(sum,2)) / (size - 1)) * exp(-r*T)`.
`size - 1` is the `size_t` (truncated ℕ) subtraction of the source. -/
noncomputable def SD (option_prices : List ℝ) (r T : ℝ) : ℝ :=
  let s := sums option_prices
  Real.sqrt ((s.2 - 1.0 / (option_prices.length : ℝ) * s.1 ^ 2)
      / ((option_prices.length - 1 : ℕ) : ℝ)) * Real.exp (-r * T)

/-- Modelled from the spec: the sample standard deviation
`sqrt((Σ payoff² − (Σ payoff)² / NSIM) / (NSIM − 1)) * exp(-r*T)` over the
EXACT per-path payoff values, as the specification states it (spec §4.5);
declared only to be compared with the source-derived `MIS.SD`. -/
noncomputable def specSD (option_prices : List ℝ) (r T : ℝ) : ℝ :=
  Real.sqrt (((option_prices.map fun p => p ^ 2).sum
      - (option_prices.sum) ^ 2 / (option_prices.length : ℝ))
      / ((option_prices.length : ℝ) - 1)) * Real.exp (-r * T)

/-- `MIS::DecisionMaking` (MIS.hpp 154-164): the decision flag holds iff
`abs(exact_price - std::get<0>(pricer_res)) < 0.01`. -/
def DecisionMaking (exact_price m_price : ℝ) : Prop :=
  |exact_price - m_price| < 0.01

/-- The standard normal density used by `boost::math::cdf` on
`boost::math::normal_distribution<double>(0, 1)` (MIS.hpp 129-146). -/
noncomputable def stdNormalPdf (t : ℝ) : ℝ :=
  (Real.sqrt (2 * Real.pi))⁻¹ * Real.exp (-(1 / 2) * t ^ 2)

/-- The standard normal cumulative distribution function (the `cdf(n, ·)`
calls of `MIS::ExactPrice`). -/
noncomputable def normalCdf (x : ℝ) : ℝ := ∫ t in Set.Iic x, stdNormalPdf t

/-- `d1` of `MIS::ExactPrice` (MIS.hpp 131/143):
`(log(S/K) + (r + pow(vol,2)/2)*T) / (vol*sqrt(T))`. -/
noncomputable def d1 (vol r T S K : ℝ) : ℝ :=
  (Real.log (S / K) + (r + vol ^ 2 / 2) * T) / (vol * Real.sqrt T)

/-- `d2` of `MIS::ExactPrice` (MIS.hpp 132/144): `d1 - vol*sqrt(T)`. -/
noncomputable def d2 (vol r T S K : ℝ) : ℝ :=
  d1 vol r T S K - vol * Real.sqrt T

/-- The Call branch of `MIS::ExactPrice` (MIS.hpp 127-137):
`S*exp((r-r)*T)*cdf(n,d1) - K*exp(-r*T)*cdf(n,d2)`. -/
noncomputable def ExactPriceCall (vol r T S K : ℝ) : ℝ :=
  S * Real.exp ((r - r) * T) * normalCdf (d1 vol r T S K)
    - K * Real.exp (-r * T) * normalCdf (d2 vol r T S K)

/-- The Put branch of `MIS::ExactPrice` (MIS.hpp 139-149):
`K*exp(-r*T)*cdf(n,-d2) - S*exp((r-r)*T)*cdf(n,-d1)`. -/
noncomputable def ExactPricePut (vol r T S K : ℝ) : ℝ :=
  K * Real.exp (-r * T) * normalCdf (-(d2 vol r T S K))
    - S * Real.exp ((r - r) * T) * normalCdf (-(d1 vol r T S K))

end MIS

namespace RNG

/-- `RNG::DefaultRandomEngine` / `RNG::MersenneTwisterEngine`
(RNG.hpp 51-81) seed their engines with the high-resolution clock reading
taken at the call: the seed IS the clock value. -/
def clockSeed (clockReading : ℕ) : ℕ := clockReading

/-- The engine name recorded by `RNG::Gaussian` (RNG.hpp 125-148):
`"Mersenne Twister"` for choice 2, `"Default Random Engine"` for choice 1
and for any invalid choice. -/
def engineNameOfChoice (choice : ℕ) : String :=
  if choice = 2 then "Mersenne Twister" else "Default Random Engine"

end RNG

namespace Pricer

/-- The seed of the engine actually consumed by the simulation loop
(Pricer.hpp 170-172): `std::default_random_engine eng;` is
default-constructed (fixed `default_seed`, modelled as 1), and when the
recorded engine name equals `"Mersenne Twister Engine"` it is replaced by
`std::mt19937(NULL)`, i.e. seed 0. The clock reading plays no role. -/
def loopEngineSeed (engineName : String) (clockReading : ℕ) : ℕ :=
  if engineName = "Mersenne Twister Engine" then 0 else 1

end Pricer

namespace FDM_SDE

theorem betaCEV_eq_one : betaCEV = 1 := by norm_num [betaCEV]

theorem diffusion_eq (vol S : ℝ) : diffusion vol S = vol * S := by
  rw [diffusion, betaCEV_eq_one, Real.rpow_one]

theorem diffusion_derivative_eq (vol S : ℝ) :
    diffusion_derivative vol S = 0.5 * vol * S := by
  rw [diffusion_derivative, betaCEV_eq_one]
  norm_num [Real.rpow_one]

end FDM_SDE

namespace Pricer

theorem asianFlag_eq_false (s : String) : asianFlag s = false := rfl

theorem simLoop_spec (term : ℕ → ℝ) (pay : ℕ → ℝ → ℝ) (accPrice : ℝ → ℝ → ℝ) :
    ∀ (n i : ℕ) (st : List ℝ × List ℝ × ℝ),
      (simLoop term pay accPrice i n st).1
          = st.1 ++ (List.range n).map (fun k => term (i + k))
        ∧ (simLoop term pay accPrice i n st).2.1
          = st.2.1 ++ (List.range n).map (fun k => pay (i + k) (term (i + k))) := by
  intro n
  induction n with
  | zero => intro i st; simp [simLoop]
  | succ m ih =>
    intro i st
    have harg : ∀ f : ℕ → ℝ,
        (List.range (m + 1)).map (fun k => f (i + k))
          = f i :: (List.range m).map (fun k => f (i + 1 + k)) := by
      intro f
      rw [List.range_succ_eq_map, List.map_cons, List.map_map]
      refine congrArg₂ _ (by simp) ?_
      apply List.map_congr_left
      intro k _
      show f (i + (k + 1)) = f (i + 1 + k)
      congr 1
      omega
    obtain ⟨h1, h2⟩ := ih (i + 1) (st.1 ++ [term i], st.2.1 ++ [pay i (term i)],
      accPrice st.2.2 (pay i (term i)))
    constructor
    · rw [simLoop, h1, harg term]
      simp
    · rw [simLoop, h2, harg (fun k => pay k (term k))]
      simp

end Pricer

namespace MIS

theorem stdNormalPdf_neg (t : ℝ) : stdNormalPdf (-t) = stdNormalPdf t := by
  simp [stdNormalPdf, neg_sq]

theorem stdNormalPdf_integrable : MeasureTheory.Integrable stdNormalPdf := by
  have h := integrable_exp_neg_mul_sq (show (0:ℝ) < 1 / 2 by norm_num)
  exact h.const_mul _

theorem stdNormalPdf_total : ∫ t : ℝ, stdNormalPdf t = 1 := by
  unfold stdNormalPdf
  rw [MeasureTheory.integral_mul_left, integral_gaussian]
  rw [show (Real.pi / (1 / 2)) = 2 * Real.pi by ring]
  exact inv_mul_cancel₀ (Real.sqrt_ne_zero'.mpr (by positivity))

theorem normalCdf_add_neg (x : ℝ) : normalCdf x + normalCdf (-x) = 1 := by
  have hneg : normalCdf (-x) = ∫ t in Set.Ioi x, stdNormalPdf t := by
    have h := integral_comp_neg_Iic (-x) stdNormalPdf
    simp only [stdNormalPdf_neg, neg_neg] at h
    rw [normalCdf, ← h]
  rw [normalCdf, hneg,
    intervalIntegral.integral_Iic_add_Ioi stdNormalPdf_integrable.integrableOn
      stdNormalPdf_integrable.integrableOn]
  exact stdNormalPdf_total

/-- C8: for every contract parameter set, the analytic benchmark prices of
`MIS::ExactPrice` satisfy put-call parity: the Call-branch price minus the
Put-branch price equals `S - K*exp(-r*T)` exactly over the reals (proved
here for all real parameters, hence in particular for
`vol > 0, T > 0, S > 0, K > 0, r ≥ 0`). -/
theorem put_call_parity (vol r T S K : ℝ) :
    ExactPriceCall vol r T S K - ExactPricePut vol r T S K
      = S - K * Real.exp (-r * T) := by
  have h1 := normalCdf_add_neg (d1 vol r T S K)
  have h2 := normalCdf_add_neg (d2 vol r T S K)
  unfold ExactPriceCall ExactPricePut
  rw [sub_self, zero_mul, Real.exp_zero]
  linear_combination S * h1 - K * Real.exp (-r * T) * h2

end MIS

namespace Pricer

theorem simLoop_start_stock (term : ℕ → ℝ) (pay : ℕ → ℝ → ℝ)
    (accPrice : ℝ → ℝ → ℝ) (n : ℕ) :
    (simLoop term pay accPrice 0 n ([], [], 0)).1 = (List.range n).map term := by
  obtain ⟨h, _⟩ := simLoop_spec term pay accPrice n 0 ([], [], 0)
  simpa using h

theorem simLoop_start_options (term : ℕ → ℝ) (pay : ℕ → ℝ → ℝ)
    (accPrice : ℝ → ℝ → ℝ) (n : ℕ) :
    (simLoop term pay accPrice 0 n ([], [], 0)).2.1
      = (List.range n).map (fun k => pay k (term k)) := by
  obtain ⟨_, h⟩ := simLoop_spec term pay accPrice n 0 ([], [], 0)
  simpa using h

end Pricer

namespace FDM_SDE

/-- C7 counterexample: the diffusion derivative used by the Milstein branch
is NOT `0.5 * sigma * V^0`: at `sigma = 2`, `V = 3` the code computes
`0.5 * 2 * 1 * 3^(2*1-1) = 3`, while the claimed form gives `1`. -/
theorem diffusion_derivative_not_v_indep :
    diffusion_derivative 2 3 ≠ 0.5 * 2 * (3 : ℝ) ^ (0 : ℝ) := by
  rw [diffusion_derivative_eq]
  rw [Real.rpow_zero]
  norm_num

/-- C7 (amended): the Milstein per-step update equals the Euler update plus
the correction `0.5 * diffusion(σ,V) * diffusion_derivative(σ,V) *
((√dt*Z)² - dt)`, where the diffusion derivative used satisfies
`diffusion_derivative(σ,V) = 0.5 * σ * V^(2β-1) = 0.5 * σ * V` under the
fixed exponent `β = 1`, i.e. it is linear in `V`, not independent of `V`. -/
theorem milstein_step_euler_plus_correction (r vol dt dt_sq VOld Z : ℝ) :
    Pricer.milsteinStep r vol dt dt_sq VOld Z
        = Pricer.eulerStep r vol dt dt_sq VOld Z
          + 0.5 * diffusion vol VOld * diffusion_derivative vol VOld
            * ((dt_sq * Z) ^ 2 - dt)
      ∧ diffusion_derivative vol VOld = 0.5 * vol * VOld := by
  constructor
  · rw [Pricer.milsteinStep, Pricer.eulerStep]
  · exact diffusion_derivative_eq vol VOld

end FDM_SDE

namespace MIS

/-- C3: the decision flag of `MIS::DecisionMaking` holds iff
`|benchmark - estimate| < 0.01` with strict inequality; at exactly `0.01`
the decision is negative. -/
theorem decision_strict_tolerance (b p : ℝ) :
    (DecisionMaking b p ↔ |b - p| < 0.01)
      ∧ (|b - p| = 0.01 → ¬ DecisionMaking b p) := by
  constructor
  · exact Iff.rfl
  · intro h hd
    rw [DecisionMaking, h] at hd
    exact lt_irrefl _ hd

theorem decision_strict_tolerance_witness : ¬ DecisionMaking 0.01 0 :=
  (decision_strict_tolerance 0.01 0).2 (by rw [sub_zero, abs_of_nonneg] <;> norm_num)

/-- C4 (code exhibit): `MIS::ComputeStatistics` has no guard for a
single-element payoff sample: the divisor `size - 1` is `0` and the formula
is still evaluated (the real-valued embedding's division-by-zero convention
returns `0`; IEEE doubles give `0.0/0.0 = NaN`), instead of an explicit
`NumericDomainError`-style failure demanded by the claim. -/
theorem sd_single_sample_no_guard (p r T : ℝ) :
    (([p] : List ℝ).length - 1 : ℕ) = 0 ∧ SD [p] r T = 0 := by
  refine ⟨by simp, ?_⟩
  simp [SD, sums]

end MIS

namespace Pricer

/-- C9 (code exhibit): the engine feeding the simulation loop of
`Pricer::GeneralPricer` is seeded by a constant that does not depend on the
clock reading: two invocations with identical inputs use the identical
seed, and for every engine name `RNG::Gaussian` can record, the
`"Mersenne Twister Engine"` comparison fails, so the seed is the default
constant 1. The clock-seeded `RNG` wrappers are never consulted. -/
theorem loop_engine_seed_fixed :
    (∀ (name : String) (t1 t2 : ℕ),
        loopEngineSeed name t1 = loopEngineSeed name t2)
      ∧ (∀ (choice t : ℕ),
        loopEngineSeed (RNG.engineNameOfChoice choice) t = 1) := by
  constructor
  · intro name t1 t2
    rfl
  · intro choice t
    by_cases hc : choice = 2
    · rw [RNG.engineNameOfChoice, if_pos hc, loopEngineSeed, if_neg (by decide)]
    · rw [RNG.engineNameOfChoice, if_neg hc, loopEngineSeed, if_neg (by decide)]

end Pricer

namespace MIS

theorem cppIntOf_half : cppIntOf (1 / 2 : ℝ) = 0 := by
  rw [cppIntOf, if_pos (by norm_num)]
  rw [Int.floor_eq_zero_iff]
  constructor <;> norm_num

theorem cppIntOf_two : cppIntOf (2 : ℝ) = 2 := by
  rw [cppIntOf, if_pos (by norm_num)]
  norm_num

/-- C2 (code exhibit): on the payoff sample `[0.5, 2]` with `r = T = 0`,
`MIS::ComputeStatistics` produces `SD = sqrt 2`, because the `[&](int n)`
lambda truncates each payoff to `int` (`[0, 2]`) before summing, while the
claimed formula over the exact payoff values yields `sqrt (9/8)`; the two
differ. -/
theorem sd_truncates_payoff_sample :
    SD [1 / 2, 2] 0 0 = Real.sqrt 2
      ∧ specSD [1 / 2, 2] 0 0 = Real.sqrt (9 / 8)
      ∧ SD [1 / 2, 2] 0 0 ≠ specSD [1 / 2, 2] 0 0 := by
  have hsums : sums [1 / 2, 2] = (2, 4) := by
    rw [sums, List.foldl_cons, List.foldl_cons, List.foldl_nil]
    dsimp only
    rw [cppIntOf_half, cppIntOf_two]
    norm_num
  have hSD : SD [1 / 2, 2] 0 0 = Real.sqrt 2 := by
    rw [SD, hsums]
    norm_num
  have hspec : specSD [1 / 2, 2] 0 0 = Real.sqrt (9 / 8) := by
    rw [specSD]
    norm_num
  refine ⟨hSD, hspec, ?_⟩
  rw [hSD, hspec]
  exact ne_of_gt (Real.sqrt_lt_sqrt (by norm_num) (by norm_num))

end MIS

namespace Pricer

theorem gbmPathTerminal_closed (S T vol r z : ℝ) (h : 0 ≤ vol) :
    gbmPathTerminal S T vol r z
      = S * Real.exp ((r - vol ^ 2 / 2) * T + vol * Real.sqrt T * z) := by
  rw [gbmPathTerminal, FDM_SDE.GBM]
  rw [Real.sqrt_mul (mul_self_nonneg vol), Real.sqrt_mul_self h]
  rw [mul_assoc, ← Real.exp_add]
  congr 2
  ring

/-- C1: for the GBM scheme (fdm choice 1) with nonnegative volatility, every
retained terminal asset value equals
`S * exp((r - sigma^2/2)*T + sigma*sqrt(T)*Z)` (the composition of
`FDM_SDE::GBM` with the per-path factor `exp(sqrt(sigma^2*T)*Z)`), the run
never sets `explicit_euler`, the NSteps field reported by `Pricer::output`
is 0, and the run is independent of NSteps (no intermediate steps). -/
theorem gbm_terminal_closed_form_and_nsteps_zero
    (od : OptionData) (NSteps NSteps2 : ℕ) (name : String)
    (payoff : ℝ → ℝ → ℝ) (Z : ℕ → ℝ) (hvol : 0 ≤ od.vol) :
    (GeneralPricer od NSteps 1 name payoff Z).stock_flunct
        = (List.range od.NSIM).map (fun i =>
            od.S * Real.exp ((od.r - od.vol ^ 2 / 2) * od.T
              + od.vol * Real.sqrt od.T * Z i))
      ∧ (GeneralPricer od NSteps 1 name payoff Z).explicit_euler = false
      ∧ outputNSteps (GeneralPricer od NSteps 1 name payoff Z) NSteps = 0
      ∧ GeneralPricer od NSteps 1 name payoff Z
          = GeneralPricer od NSteps2 1 name payoff Z := by
  refine ⟨?_, ?_, ?_, ?_⟩
  · rw [show (GeneralPricer od NSteps 1 name payoff Z).stock_flunct
        = (List.range od.NSIM).map
            (fun i => gbmPathTerminal od.S od.T od.vol od.r (Z i)) by
      simp [GeneralPricer, simLoop_start_stock]]
    apply List.map_congr_left
    intro i _
    exact gbmPathTerminal_closed od.S od.T od.vol od.r (Z i) hvol
  · simp [GeneralPricer]
  · simp [outputNSteps, GeneralPricer]
  · simp [GeneralPricer]

theorem gbm_terminal_closed_form_and_nsteps_zero_witness :
    (0 : ℝ) ≤ 1
      ∧ outputNSteps
          (GeneralPricer ⟨1, 0, 1, 1, 1, 1⟩ 5 1 "European Call"
            (fun k v => v - k) (fun _ => 0)) 5 = 0 :=
  ⟨by norm_num,
    (gbm_terminal_closed_form_and_nsteps_zero ⟨1, 0, 1, 1, 1, 1⟩ 5 7
      "European Call" (fun k v => v - k) (fun _ => 0) (by norm_num)).2.2.1⟩

end Pricer

namespace Pricer

/-- C10: for every recognized scheme choice (1, 2 or 3), a run starting
from empty sample vectors retains exactly NSIM asset values and exactly
NSIM payoffs, and the i-th payoff is the payoff of the i-th retained asset
value (`option_prices = stock_flunct.map (payoff K)` in the non-Asian
case). -/
theorem one_sample_pair_per_path (od : OptionData) (NSteps choice : ℕ)
    (name : String) (payoff : ℝ → ℝ → ℝ) (Z : ℕ → ℝ)
    (hch : choice = 1 ∨ choice = 2 ∨ choice = 3)
    (hname : isAsianName name = false) :
    (GeneralPricer od NSteps choice name payoff Z).stock_flunct.length = od.NSIM
      ∧ (GeneralPricer od NSteps choice name payoff Z).option_prices.length = od.NSIM
      ∧ (GeneralPricer od NSteps choice name payoff Z).option_prices
          = (GeneralPricer od NSteps choice name payoff Z).stock_flunct.map
              (fun v => payoff od.K v) := by
  rcases hch with h | h | h <;> subst h <;>
    refine ⟨?_, ?_, ?_⟩ <;>
    simp [GeneralPricer, simLoop_start_stock, simLoop_start_options,
      asianFlag_eq_false, List.map_map, Function.comp]

theorem one_sample_pair_per_path_witness :
    ((2 : ℕ) = 1 ∨ (2 : ℕ) = 2 ∨ (2 : ℕ) = 3)
      ∧ isAsianName "European Call" = false
      ∧ (GeneralPricer ⟨1, 0, 1, 1, 1, 3⟩ 2 2 "European Call"
          (fun k v => v - k) (fun _ => 0)).option_prices.length = 3 :=
  ⟨Or.inr (Or.inl rfl), by decide,
    (one_sample_pair_per_path ⟨1, 0, 1, 1, 1, 3⟩ 2 2 "European Call"
      (fun k v => v - k) (fun _ => 0) (Or.inr (Or.inl rfl)) (by decide)).2.1⟩

/-- C5 (code exhibit): with a time-discretized scheme (choice 2) and
`NSteps = 0`, `Pricer::GeneralPricer` performs no rejection: the time step
`dt = T / NSteps` is evaluated with the zero divisor (IEEE doubles give
infinity; the real-valued embedding's convention gives 0), the path loop
still runs and retains NSIM samples, and the inner time loop
(`j = 0; j <= NSteps`) still executes one step per path. -/
theorem euler_nsteps_zero_not_rejected (od : OptionData) (name : String)
    (payoff : ℝ → ℝ → ℝ) (Z : ℕ → ℝ) :
    dtOf od.T 0 = 0
      ∧ (GeneralPricer od 0 2 name payoff Z).stock_flunct.length = od.NSIM
      ∧ pathDraws Z 0 0 = [Z 0] := by
  refine ⟨?_, ?_, ?_⟩
  · rw [dtOf]
    norm_num
  · simp [GeneralPricer, simLoop_start_stock]
  · simp [pathDraws, List.range_succ]

end Pricer

namespace Pricer

/-- C6 (code exhibit): with the Asian payoff name `"Asian Call"` (which
matches the `"(Asian)(.*)"` pattern) and the time-discretized Explicit
Euler scheme, the payoff is applied to the path's TERMINAL value, not to
the arithmetic mean of the intermediate values: because the inner
`bool asian = true;` shadows the outer flag, the flag stays false. In the
concrete run below (vol = 1, r = 0, T = 1, S = 1, NSIM = 1, NSteps = 1,
all draws equal to 1) the recorded intermediate values are `[2, 4]` with
arithmetic mean 3, yet the single retained payoff is `payoff K 4`. -/
theorem asian_payoff_evaluated_at_terminal (payoff : ℝ → ℝ → ℝ) (K : ℝ) :
    isAsianName "Asian Call" = true
      ∧ asianFlag "Asian Call" = false
      ∧ (GeneralPricer ⟨1, 0, 1, 1, K, 1⟩ 1 2 "Asian Call" payoff
          (fun _ => 1)).option_prices = [payoff K 4]
      ∧ pathValues
          (fun V z => eulerStep 0 1 (dtOf 1 1) (Real.sqrt (dtOf 1 1)) V z) 1
          (pathDraws (fun _ => 1) 1 0) = [2, 4] := by
  have hdt : dtOf (1 : ℝ) 1 = 1 := by
    rw [dtOf]
    norm_num
  refine ⟨by decide, rfl, ?_, ?_⟩
  · simp only [GeneralPricer, asianFlag_eq_false, simLoop_start_options]
    norm_num [pathDraws, List.range_succ, discretizedTerminal, eulerStep,
      FDM_SDE.drift, FDM_SDE.diffusion_eq, dtOf, Real.sqrt_one]
  · rw [hdt, Real.sqrt_one]
    simp only [pathValues, pathDraws]
    norm_num [List.range_succ, List.scanl, eulerStep, FDM_SDE.drift,
      FDM_SDE.diffusion_eq]

end Pricer
